import Mathlib

/-!
Verification of the LocalLru repository's two scripts against its
natural-language specification.

* `scripts/plot_results.py` (the Plotter): checks the path exists, loads a
  CSV table, validates the required columns `cache_type` and `latency_us`,
  shows two figures, and prints the grouped descriptive statistics
  `df.groupby("cache_type")["latency_us"].describe()`.
* `scripts/fetch_data.py` (the Fetcher): for each symbol in a fixed list,
  downloads price data and writes it to `<scriptdir>/../data/<SYM>.csv`,
  printing `Saved <path>` per file; any exception aborts the run.

Tables are embedded as a header row plus rows of cells; numeric values are
rationals (the statistics of the script are sums, quotients and
order-statistics, all exact on ℚ).  The sample standard deviation printed
by pandas is an irrational square root, so the embedding carries its square
(the ddof = 1 sample variance) in the field `svar`; no claim mentions the
standard deviation's value.
-/

namespace LocalLru

/-- A cell of the CSV table: a string, a number, or a missing value (NaN). -/
inductive Cell : Type
  | str (s : String)
  | num (q : ℚ)
  | missing
deriving DecidableEq, Repr

/-- A parsed CSV table: column names and rows of cells (row cells are
positional, aligned with `columns`), as produced by `pd.read_csv`. -/
structure Table : Type where
  columns : List String
  rows : List (List Cell)
deriving DecidableEq, Repr

/-- Value of column `c` in row `row` of table `t` (one entry of `df[c]`):
find the column's position in the header and index the row there. -/
def getCell (t : Table) (c : String) (row : List Cell) : Option Cell :=
  (t.columns.findIdx? (fun x => x = c)).bind (fun i => row[i]?)

/-- The group key a cell contributes to `df.groupby("cache_type")`.
Per the data model `cache_type` values are strings; a row whose
`cache_type` is missing is dropped by the grouping (pandas excludes NaN
group keys). -/
def keyOfCell : Option Cell → Option String
  | some (Cell.str s) => some s
  | _ => none

/-- The numeric value of a `latency_us` cell, `none` when missing
(missing values do not contribute to the described statistics). -/
def numOfCell : Option Cell → Option ℚ
  | some (Cell.num q) => some q
  | _ => none

/-- Group key of one row under `df.groupby("cache_type")`. -/
def cacheKey (t : Table) (row : List Cell) : Option String :=
  keyOfCell (getCell t "cache_type" row)

/-- The `latency_us` value of one row. -/
def latVal (t : Table) (row : List Cell) : Option ℚ :=
  numOfCell (getCell t "latency_us" row)

/-- Code-point comparison of characters, as Python compares strings. -/
def charLe (a b : Char) : Bool := a.val ≤ b.val

/-- Lexicographic comparison of character lists by code point. -/
def strLeAux : List Char → List Char → Bool
  | [], _ => true
  | _ :: _, [] => false
  | a :: as, b :: bs => if a = b then strLeAux as bs else charLe a b

/-- Python's lexicographic string order by code point, used by pandas when
it sorts the group keys. -/
def strLe (a b : String) : Bool := strLeAux a.data b.data

/-- The distinct group keys of `df.groupby("cache_type")`, in the order the
groups are emitted (pandas sorts group keys ascending by default). -/
def groupKeys (t : Table) : List String :=
  List.insertionSort (fun a b => strLe a b = true) (t.rows.filterMap (cacheKey t)).dedup

/-- The rows of one group, in original row order. -/
def groupRows (t : Table) (k : String) : List (List Cell) :=
  t.rows.filter (fun r => cacheKey t r = some k)

/-- The non-missing `latency_us` values of one group: the series that
`.describe()` summarises. -/
def groupVals (t : Table) (k : String) : List ℚ :=
  (groupRows t k).filterMap (latVal t)

/-- Linear interpolation of an (already sorted) list at fractional rank
`h`: NumPy splits `h` into integer part `i` and fractional part and
interpolates between the `i`-th and `(i+1)`-th order statistics. -/
def interpAt (xs : List ℚ) (h : ℚ) : ℚ :=
  xs.getD (⌊h⌋).toNat 0 +
    (h - ((⌊h⌋).toNat : ℚ)) *
      (xs.getD ((⌊h⌋).toNat + 1) (xs.getD (⌊h⌋).toNat 0) - xs.getD (⌊h⌋).toNat 0)

/-- NumPy/pandas percentile `p` (0 ≤ p ≤ 100) of a sorted list, with the
default linear interpolation: rank `h = (n-1)·p/100`. -/
def percentile (xs : List ℚ) (p : ℚ) : ℚ :=
  interpAt xs (((xs.length : ℚ) - 1) * p / 100)

/-- One row of the printed `describe()` table.  `svar` is the square of the
printed sample standard deviation (ddof = 1); statistics that pandas prints
as NaN (everything but `count` on an empty series, `std` on a singleton)
are `none`. -/
structure Stats : Type where
  count : ℕ
  mean : Option ℚ
  svar : Option ℚ
  min : Option ℚ
  q25 : Option ℚ
  q50 : Option ℚ
  q75 : Option ℚ
  max : Option ℚ
deriving DecidableEq, Repr

/-- `Series.describe()` on the non-missing values `vals`. -/
def describeQ (vals : List ℚ) : Stats :=
  if vals.length = 0 then
    ⟨0, none, none, none, none, none, none, none⟩
  else
    let sorted := List.insertionSort (fun a b => a ≤ b) vals
    let m := vals.sum / (vals.length : ℚ)
    { count := vals.length
      mean := some m
      svar := if 2 ≤ vals.length then
          some ((vals.map (fun x => (x - m) ^ 2)).sum / ((vals.length : ℚ) - 1))
        else none
      min := some (sorted.getD 0 0)
      q25 := some (percentile sorted 25)
      q50 := some (percentile sorted 50)
      q75 := some (percentile sorted 75)
      max := some (sorted.getD (vals.length - 1) 0) }

/-- The printed statistics blocks of
`df.groupby("cache_type")["latency_us"].describe()`: one block per group
key, in group order. -/
def statsBlocks (t : Table) : List (String × Stats) :=
  (groupKeys t).map (fun k => (k, describeQ (groupVals t k)))

/-- The check `{"cache_type", "latency_us"}.issubset(df.columns)`. -/
def hasCols (t : Table) : Bool :=
  ("cache_type" ∈ t.columns) && ("latency_us" ∈ t.columns)

def notFoundMsg (p : String) : String := "CSV file " ++ p ++ " not found."

def missingColsMsg : String := "CSV missing required columns: cache_type, latency_us"

def usageMsg : String := "Usage: python scripts/plot_results.py <results.csv>"

/-- The banner printed before the statistics (the source prints it with a
leading newline). -/
def banner : String := "\n=== Summary Statistics ==="

/-- Observable outcome of one Plotter run: process exit code, console lines
printed before the statistics table, number of figures displayed by
`plt.show()`, and the statistics table itself (`none` when the run exits
before reaching it). -/
structure RunResult : Type where
  exitCode : ℕ
  printed : List String
  figures : ℕ
  stats : Option (List (String × Stats))
deriving DecidableEq, Repr

/-- The function `plot_results(csv_file)`.  The filesystem is a map from
paths to parsed tables; `fs p = none` models `not os.path.exists(p)`. -/
def plot_results (fs : String → Option Table) (csv_file : String) : RunResult :=
  match fs csv_file with
  | none => ⟨1, [notFoundMsg csv_file], 0, none⟩
  | some df =>
    if hasCols df then
      ⟨0, [banner], 2, some (statsBlocks df)⟩
    else
      ⟨1, [missingColsMsg], 0, none⟩

/-- The `__main__` block: `argv` is the full `sys.argv` (program name
first); with fewer than two entries it prints usage and exits 1, otherwise
it runs `plot_results` on `sys.argv[1]`. -/
def main (fs : String → Option Table) (argv : List String) : RunResult :=
  if argv.length < 2 then
    ⟨1, [usageMsg], 0, none⟩
  else
    plot_results fs (argv.getD 1 "")

/-- A well-formed input table in the sense of the spec's data model: every
row has a string `cache_type` cell and a numeric `latency_us` cell. -/
def wellFormed (t : Table) : Bool :=
  t.rows.all (fun r => (cacheKey t r).isSome && (latVal t r).isSome)

/-- The two columns the statistics read, projected out of each row. -/
def projPairs (t : Table) : List (Option Cell × Option Cell) :=
  t.rows.map (fun r => (getCell t "cache_type" r, getCell t "latency_us" r))

/-- The statistics blocks as a function of the per-row
(`cache_type` key, `latency_us` value) pairs alone; proof artifact used to
show the statistics ignore all other columns. -/
def blocksOfPairs (l : List (Option String × Option ℚ)) : List (String × Stats) :=
  (List.insertionSort (fun a b => strLe a b = true)
      (l.filterMap (fun pr => pr.1)).dedup).map
    (fun k => (k, describeQ
      ((l.filter (fun pr => decide (pr.1 = some k))).filterMap (fun pr => pr.2))))

/-- The example table of the spec's testable-properties section:
rows ("LocalLRU", 12.5), ("LocalLRU", 13.0), ("LockCache", 50.0). -/
def table3 : Table :=
  ⟨["cache_type", "latency_us"],
   [[Cell.str "LocalLRU", Cell.num (25/2)],
    [Cell.str "LocalLRU", Cell.num 13],
    [Cell.str "LockCache", Cell.num 50]]⟩

/-- `table3` with an extra `run` column inserted between the two required
columns; witness input for the column-irrelevance claim. -/
def table3x : Table :=
  ⟨["cache_type", "run", "latency_us"],
   [[Cell.str "LocalLRU", Cell.num 1, Cell.num (25/2)],
    [Cell.str "LocalLRU", Cell.num 2, Cell.num 13],
    [Cell.str "LockCache", Cell.num 3, Cell.num 50]]⟩

/-- A filesystem with no files; witness input. -/
def emptyFs : String → Option Table := fun _ => none

/-- A table without the required columns; witness input. -/
def tbad : Table := ⟨["foo"], [[Cell.num 1]]⟩

/-- A filesystem whose every path holds `tbad`; witness input. -/
def badFs : String → Option Table := fun _ => some tbad

end LocalLru

namespace Fetcher

/-- A filesystem path, as its list of components. -/
abbrev Path := List String

/-- Textual form of a path, as Python's `os.path.join` builds it. -/
def pathStr (p : Path) : String := String.intercalate "/" p

/-- OS-level resolution of `..` components: a `..` removes the preceding
component.  Models how the operating system resolves the textual path
`scripts/../data` that the script passes to `makedirs`/`to_csv`. -/
def normComps (p : Path) : Path :=
  p.foldl (fun acc c => if c = ".." then acc.dropLast else acc ++ [c]) []

/-- The hardcoded symbol list of `fetch_data.py`. -/
def symbols : List String := ["AAPL", "MSFT", "GOOG", "TSLA"]

/-- `base_path = os.path.join(os.path.dirname(__file__), "..", "data")`. -/
def basePath (sd : Path) : Path := sd ++ ["..", "data"]

/-- `filepath = os.path.join(base_path, f"{sym}.csv")` (textual form). -/
def filePath (sd : Path) (sym : String) : Path := basePath sd ++ [sym ++ ".csv"]

/-- The console line `print(f"Saved {filepath}")`. -/
def savedLine (sd : Path) (sym : String) : String :=
  "Saved " ++ pathStr (filePath sd sym)

/-- The resolved on-disk location of one symbol's output file. -/
def normPath (sd : Path) (sym : String) : Path := normComps (filePath sd sym)

/-- External effects the run depends on: `yf.download` per symbol (`none`
models an exception) and whether `to_csv` at a path succeeds. -/
structure FetchEnv (α : Type) : Type where
  download : String → Option α
  writeOk : Path → Bool

/-- Observable state: files on disk (keyed by resolved path), existing
directories, and console lines printed so far. -/
structure FetchState (α : Type) : Type where
  files : Path → Option α
  dirs : List Path
  printed : List String

/-- One iteration of the `for sym in symbols` loop: download, write the
file, print the confirmation; `none` models an exception escaping. -/
def step {α : Type} (sd : Path) (env : FetchEnv α) (st : FetchState α)
    (sym : String) : Option (FetchState α) :=
  match env.download sym with
  | none => none
  | some d =>
    if env.writeOk (normPath sd sym) then
      some { files := fun p => if p = normPath sd sym then some d else st.files p
             dirs := st.dirs
             printed := st.printed ++ [savedLine sd sym] }
    else none

/-- The loop over the symbol list; an exception aborts the run, keeping the
side effects made so far (`Except.error` carries the state at the abort). -/
def runFrom {α : Type} (sd : Path) (env : FetchEnv α) :
    FetchState α → List String → Except (FetchState α) (FetchState α)
  | st, [] => Except.ok st
  | st, sym :: rest =>
    match step sd env st sym with
    | none => Except.error st
    | some st2 => runFrom sd env st2 rest

/-- `os.makedirs(base_path, exist_ok=True)`: creates the directory, not an
error when it already exists. -/
def makedirs (p : Path) (ds : List Path) : List Path :=
  if p ∈ ds then ds else ds ++ [p]

/-- The whole script: create the output directory, then loop over the
symbol list. -/
def fetchMain {α : Type} (sd : Path) (env : FetchEnv α) (init : FetchState α) :
    Except (FetchState α) (FetchState α) :=
  runFrom sd env
    { files := init.files
      dirs := makedirs (normComps (basePath sd)) init.dirs
      printed := init.printed } symbols

/-- The download and the write for `sym` both succeed. -/
abbrev stepOk {α : Type} (sd : Path) (env : FetchEnv α) (sym : String) : Prop :=
  (env.download sym).isSome = true ∧ env.writeOk (normPath sd sym) = true

/-- Environment in which every download and write succeeds; witness input. -/
def wEnv : FetchEnv ℕ := ⟨fun _ => some 0, fun _ => true⟩

/-- Environment in which the download of "GOOG" raises; witness input. -/
def wEnv2 : FetchEnv ℕ :=
  ⟨fun s => if s = "GOOG" then none else some 0, fun _ => true⟩

/-- Empty initial machine state; witness input. -/
def wInit : FetchState ℕ := ⟨fun _ => none, [], []⟩

end Fetcher

namespace LocalLru

/-- Helper: a `filterMap` by an everywhere-defined function keeps the
length. -/
theorem filterMap_length_of_isSome {α β : Type} (f : α → Option β) :
    ∀ l : List α, (∀ x ∈ l, (f x).isSome) → (l.filterMap f).length = l.length := by
  intro l
  induction l with
  | nil => intro _; rfl
  | cons a l ih =>
    intro h
    obtain ⟨b, hb⟩ := Option.isSome_iff_exists.mp (h a (List.mem_cons_self a l))
    have hrest := ih (fun x hx => h x (List.mem_cons_of_mem a hx))
    simp [List.filterMap_cons, hb, hrest]

/-- C2: for a path that names no existing file, the Plotter prints one
diagnostic line containing that path, exits with status 1, shows no figure
and prints no statistics. -/
theorem missing_file_exits_one (fs : String → Option Table) (p : String)
    (h : fs p = none) :
    plot_results fs p = ⟨1, [notFoundMsg p], 0, none⟩ ∧
    p.data <:+: (notFoundMsg p).data := by
  constructor
  · simp [plot_results, h]
  · refine ⟨("CSV file ").data, (" not found.").data, ?_⟩
    simp [notFoundMsg, String.data_append]

/-- Witness for C2 at a concrete filesystem and path. -/
theorem missing_file_exits_one_witness :
    emptyFs "results.csv" = none ∧
    (plot_results emptyFs "results.csv" =
        ⟨1, [notFoundMsg "results.csv"], 0, none⟩ ∧
      ("results.csv").data <:+: (notFoundMsg "results.csv").data) :=
  ⟨rfl, missing_file_exits_one emptyFs "results.csv" rfl⟩

/-- C3: for an existing table that lacks a required column, the Plotter
prints one diagnostic line naming both required columns, exits with
status 1 and attempts no plotting. -/
theorem missing_columns_exits_one (fs : String → Option Table) (p : String)
    (t : Table) (hf : fs p = some t) (hc : hasCols t = false) :
    plot_results fs p = ⟨1, [missingColsMsg], 0, none⟩ ∧
    ("cache_type").data <:+: missingColsMsg.data ∧
    ("latency_us").data <:+: missingColsMsg.data := by
  refine ⟨by simp [plot_results, hf, hc], ?_, ?_⟩
  · exact ⟨("CSV missing required columns: ").data, (", latency_us").data, by decide⟩
  · exact ⟨("CSV missing required columns: cache_type, ").data, [], by decide⟩

/-- Witness for C3 at a concrete filesystem and table. -/
theorem missing_columns_exits_one_witness :
    badFs "results.csv" = some tbad ∧ hasCols tbad = false ∧
    (plot_results badFs "results.csv" = ⟨1, [missingColsMsg], 0, none⟩ ∧
      ("cache_type").data <:+: missingColsMsg.data ∧
      ("latency_us").data <:+: missingColsMsg.data) :=
  ⟨rfl, by decide, missing_columns_exits_one badFs "results.csv" tbad rfl (by decide)⟩

/-- C4: invoked with zero positional arguments (only the program name in
`sys.argv`), the Plotter prints the usage message, exits with status 1,
shows no figure and prints no statistics. -/
theorem no_args_usage_exit (fs : String → Option Table) (prog : String) :
    main fs [prog] = ⟨1, [usageMsg], 0, none⟩ := rfl

/-- C10: with two or more command-line arguments the Plotter reports no
error; every argument after the first is ignored and the outcome equals the
run on the first argument alone. -/
theorem extra_cli_args_ignored (fs : String → Option Table) (prog a : String)
    (rest : List String) :
    main fs (prog :: a :: rest) = main fs [prog, a] := rfl

end LocalLru

namespace LocalLru

/-- Helper: the count field of a describe block is the series length. -/
theorem describeQ_count (vals : List ℚ) : (describeQ vals).count = vals.length := by
  by_cases h : vals.length = 0 <;> simp [describeQ, h]

/-- Helper: the mean field of a describe block on a nonempty series. -/
theorem describeQ_mean (vals : List ℚ) (h : vals.length ≠ 0) :
    (describeQ vals).mean = some (vals.sum / (vals.length : ℚ)) := by
  simp [describeQ, h]

/-- C1: on a well-formed table with both required columns, the statistics
output has exactly one block per distinct `cache_type` value, and each
block's count equals the number of rows carrying that value. -/
theorem groupby_blocks_count_correct (t : Table)
    (hcols : hasCols t = true) (hwf : wellFormed t = true) :
    (statsBlocks t).length = (t.rows.filterMap (cacheKey t)).toFinset.card ∧
    ∀ k s, (k, s) ∈ statsBlocks t →
      s.count = t.rows.countP (fun r => decide (cacheKey t r = some k)) := by
  constructor
  · calc (statsBlocks t).length = (groupKeys t).length := by simp [statsBlocks]
      _ = (t.rows.filterMap (cacheKey t)).dedup.length :=
          (List.perm_insertionSort _ _).length_eq
      _ = (t.rows.filterMap (cacheKey t)).toFinset.card :=
          (List.card_toFinset _).symm
  · intro k s hmem
    obtain ⟨k2, hk2, heq⟩ := List.mem_map.mp hmem
    rw [Prod.mk.injEq] at heq
    obtain ⟨rfl, rfl⟩ := heq
    rw [describeQ_count, groupVals, groupRows]
    rw [filterMap_length_of_isSome]
    · exact (List.countP_eq_length_filter _ _).symm
    · intro r hr
      have hrt : r ∈ t.rows := (List.mem_filter.mp hr).1
      have hall := (List.all_eq_true.mp hwf) r hrt
      simp only [Bool.and_eq_true] at hall
      exact hall.2

/-- Witness for C1 at the concrete example table. -/
theorem groupby_blocks_count_correct_witness :
    hasCols table3 = true ∧ wellFormed table3 = true ∧
    ((statsBlocks table3).length =
        (table3.rows.filterMap (cacheKey table3)).toFinset.card ∧
      ∀ k s, (k, s) ∈ statsBlocks table3 →
        s.count = table3.rows.countP (fun r => decide (cacheKey table3 r = some k))) :=
  ⟨by decide, by decide,
    groupby_blocks_count_correct table3 (by decide) (by decide)⟩

/-- C6: on the spec's example table the statistics output has exactly the
two groups "LocalLRU" (count 2, mean 12.75) and "LockCache" (count 1,
mean 50). -/
theorem sample_table_two_groups :
    (statsBlocks table3).map (fun b => (b.1, b.2.count, b.2.mean)) =
      [("LocalLRU", 2, some ((51 : ℚ)/4)), ("LockCache", 1, some (50 : ℚ))] := by
  have hkeys : groupKeys table3 = ["LocalLRU", "LockCache"] := by decide
  have hv1 : groupVals table3 "LocalLRU" = [25/2, 13] := rfl
  have hv2 : groupVals table3 "LockCache" = [50] := rfl
  simp only [statsBlocks, hkeys, List.map_cons, List.map_nil, hv1, hv2]
  rw [describeQ_count, describeQ_mean _ (by norm_num),
    describeQ_count, describeQ_mean _ (by norm_num)]
  norm_num [List.sum_cons, List.sum_nil]

/-- Helper: the statistics blocks are a function of the per-row projected
(`cache_type`, `latency_us`) pairs alone. -/
theorem statsBlocks_eq_blocksOfPairs (t : Table) :
    statsBlocks t =
      blocksOfPairs (t.rows.map (fun r => (cacheKey t r, latVal t r))) := by
  unfold statsBlocks blocksOfPairs groupKeys groupVals groupRows
  simp only [List.filterMap_map, List.filter_map, Function.comp_def]

/-- C7: two tables with both required columns that agree row-for-row on
the `cache_type` and `latency_us` columns print the same statistics; other
columns have no effect. -/
theorem extra_columns_no_effect (t1 t2 : Table)
    (h1 : hasCols t1 = true) (h2 : hasCols t2 = true)
    (hp : projPairs t1 = projPairs t2) :
    statsBlocks t1 = statsBlocks t2 := by
  have hphi : t1.rows.map (fun r => (cacheKey t1 r, latVal t1 r)) =
      t2.rows.map (fun r => (cacheKey t2 r, latVal t2 r)) := by
    have hc := congrArg
      (List.map (fun pr : Option Cell × Option Cell =>
        (keyOfCell pr.1, numOfCell pr.2))) hp
    simpa only [projPairs, List.map_map, Function.comp, cacheKey, latVal] using hc
  rw [statsBlocks_eq_blocksOfPairs, statsBlocks_eq_blocksOfPairs, hphi]

/-- Witness for C7: adding a `run` column between the two required columns
leaves the statistics unchanged. -/
theorem extra_columns_no_effect_witness :
    hasCols table3 = true ∧ hasCols table3x = true ∧
    projPairs table3 = projPairs table3x ∧
    statsBlocks table3 = statsBlocks table3x :=
  ⟨by decide, by decide, rfl,
    extra_columns_no_effect table3 table3x (by decide) (by decide) rfl⟩

end LocalLru

namespace LocalLru

/-- Helper: in a sorted list, `getD` with default 0 is monotone on
in-range indices. -/
theorem getD_le_getD_of_sorted {xs : List ℚ}
    (hs : List.Sorted (fun a b => a ≤ b) xs)
    {i j : ℕ} (hij : i ≤ j) (hj : j < xs.length) :
    xs.getD i 0 ≤ xs.getD j 0 := by
  have hi : i < xs.length := lt_of_le_of_lt hij hj
  rw [List.getD_eq_getElem xs 0 hi, List.getD_eq_getElem xs 0 hj]
  have h := hs.rel_get_of_le (a := ⟨i, hi⟩) (b := ⟨j, hj⟩) (Fin.mk_le_mk.mpr hij)
  simpa [List.get_eq_getElem] using h

/-- Helper: interpolation at an integral rank hits the element itself. -/
theorem interpAt_natCast (xs : List ℚ) (k : ℕ) :
    interpAt xs (k : ℚ) = xs.getD k 0 := by
  have h1 : ⌊(k : ℚ)⌋ = (k : ℤ) := Int.floor_natCast k
  simp [interpAt, h1]

/-- Helper: linear interpolation on a sorted list is monotone in the rank,
for ranks between 0 and the last index. -/
theorem interpAt_le_interpAt {xs : List ℚ}
    (hs : List.Sorted (fun a b => a ≤ b) xs)
    {a b : ℚ} (h0 : 0 ≤ a) (hab : a ≤ b) (hub : b ≤ (xs.length : ℚ) - 1) :
    interpAt xs a ≤ interpAt xs b := by
  unfold interpAt
  set i := (⌊a⌋).toNat with hidef
  set j := (⌊b⌋).toNat with hjdef
  have hfa0 : (0 : ℤ) ≤ ⌊a⌋ := Int.floor_nonneg.mpr h0
  have hfb0 : (0 : ℤ) ≤ ⌊b⌋ := le_trans hfa0 (Int.floor_le_floor hab)
  have hiaZ : ((i : ℤ)) = ⌊a⌋ := Int.toNat_of_nonneg hfa0
  have hjbZ : ((j : ℤ)) = ⌊b⌋ := Int.toNat_of_nonneg hfb0
  have hiaq : ((i : ℚ)) = ((⌊a⌋ : ℤ) : ℚ) := by exact_mod_cast hiaZ
  have hjbq : ((j : ℚ)) = ((⌊b⌋ : ℤ) : ℚ) := by exact_mod_cast hjbZ
  have hij : i ≤ j := by
    have hf := Int.floor_le_floor hab
    omega
  have hjlen : j < xs.length := by
    have h1 : ((⌊b⌋ : ℤ) : ℚ) ≤ (xs.length : ℚ) - 1 := le_trans (Int.floor_le b) hub
    have h2 : ⌊b⌋ ≤ (xs.length : ℤ) - 1 := by exact_mod_cast h1
    omega
  have hfraca0 : 0 ≤ a - (i : ℚ) := by
    rw [hiaq]
    have := Int.floor_le a
    linarith
  have hfraca1 : a - (i : ℚ) ≤ 1 := by
    rw [hiaq]
    have := Int.lt_floor_add_one a
    push_cast at this ⊢
    linarith
  have hfracb0 : 0 ≤ b - (j : ℚ) := by
    rw [hjbq]
    have := Int.floor_le b
    linarith
  rcases eq_or_lt_of_le hij with heq | hlt
  · rw [← heq]
    have hilen : i < xs.length := by omega
    have hd : 0 ≤ xs.getD (i + 1) (xs.getD i 0) - xs.getD i 0 := by
      by_cases hc : i + 1 < xs.length
      · have hmono := getD_le_getD_of_sorted hs (Nat.le_succ i) hc
        have e1 : xs.getD (i + 1) (xs.getD i 0) = xs.getD (i + 1) 0 := by
          rw [List.getD_eq_getElem xs _ hc, List.getD_eq_getElem xs 0 hc]
        rw [e1]
        linarith
      · rw [List.getD_eq_default]
        · simp
        · omega
    have hfr : a - (i : ℚ) ≤ b - (i : ℚ) := by linarith
    nlinarith [mul_le_mul_of_nonneg_right hfr hd]
  · have hi1le : i + 1 ≤ j := hlt
    have hi1len : i + 1 < xs.length := lt_of_le_of_lt hi1le hjlen
    have hilen : i < xs.length := by omega
    have e1 : xs.getD (i + 1) (xs.getD i 0) = xs.getD (i + 1) 0 := by
      rw [List.getD_eq_getElem xs _ hi1len, List.getD_eq_getElem xs 0 hi1len]
    rw [e1]
    have hAB : xs.getD i 0 ≤ xs.getD (i + 1) 0 :=
      getD_le_getD_of_sorted hs (Nat.le_succ i) hi1len
    have hBC : xs.getD (i + 1) 0 ≤ xs.getD j 0 :=
      getD_le_getD_of_sorted hs hi1le hjlen
    have hCD : 0 ≤ xs.getD (j + 1) (xs.getD j 0) - xs.getD j 0 := by
      by_cases hc : j + 1 < xs.length
      · have hmono := getD_le_getD_of_sorted hs (Nat.le_succ j) hc
        have e2 : xs.getD (j + 1) (xs.getD j 0) = xs.getD (j + 1) 0 := by
          rw [List.getD_eq_getElem xs _ hc, List.getD_eq_getElem xs 0 hc]
        rw [e2]
        linarith
      · rw [List.getD_eq_default]
        · simp
        · omega
    have h1 : xs.getD i 0 + (a - (i : ℚ)) * (xs.getD (i + 1) 0 - xs.getD i 0) ≤
        xs.getD (i + 1) 0 := by
      nlinarith [mul_nonneg (by linarith : (0 : ℚ) ≤ 1 - (a - (i : ℚ)))
        (by linarith : (0 : ℚ) ≤ xs.getD (i + 1) 0 - xs.getD i 0)]
    have h3 : xs.getD j 0 ≤
        xs.getD j 0 + (b - (j : ℚ)) * (xs.getD (j + 1) (xs.getD j 0) - xs.getD j 0) := by
      nlinarith [mul_nonneg hfracb0 hCD]
    linarith

/-- Helper: the 0th percentile of a list is its first element. -/
theorem percentile_zero (xs : List ℚ) : percentile xs 0 = xs.getD 0 0 := by
  have h : ((xs.length : ℚ) - 1) * 0 / 100 = ((0 : ℕ) : ℚ) := by norm_num
  rw [percentile, h, interpAt_natCast]

/-- Helper: the 100th percentile of a nonempty list is its last element. -/
theorem percentile_hundred (xs : List ℚ) (hne : xs.length ≠ 0) :
    percentile xs 100 = xs.getD (xs.length - 1) 0 := by
  have hn : 1 ≤ xs.length := Nat.one_le_iff_ne_zero.mpr hne
  have h : ((xs.length : ℚ) - 1) * 100 / 100 = ((xs.length - 1 : ℕ) : ℚ) := by
    push_cast [Nat.cast_sub hn]
    ring
  rw [percentile, h, interpAt_natCast]

/-- Helper: on a sorted nonempty list, the interpolated percentile is
monotone in the percentage over [0, 100]. -/
theorem percentile_le_percentile {xs : List ℚ}
    (hs : List.Sorted (fun a b => a ≤ b) xs) (hne : xs.length ≠ 0)
    {p q : ℚ} (hp : 0 ≤ p) (hpq : p ≤ q) (hq : q ≤ 100) :
    percentile xs p ≤ percentile xs q := by
  have hn : 1 ≤ xs.length := Nat.one_le_iff_ne_zero.mpr hne
  have hc0 : (0 : ℚ) ≤ (xs.length : ℚ) - 1 := by
    have h1 : (1 : ℚ) ≤ (xs.length : ℚ) := by exact_mod_cast hn
    linarith
  apply interpAt_le_interpAt hs
  · exact div_nonneg (mul_nonneg hc0 hp) (by norm_num)
  · have h2 : ((xs.length : ℚ) - 1) * p ≤ ((xs.length : ℚ) - 1) * q :=
      mul_le_mul_of_nonneg_left hpq hc0
    have h100 : (0 : ℚ) < 100 := by norm_num
    exact (div_le_div_right h100).mpr h2
  · rw [div_le_iff₀ (by norm_num : (0 : ℚ) < 100)]
    exact mul_le_mul_of_nonneg_left hq hc0

end LocalLru

namespace LocalLru

/-- Helper: min field of a describe block on a nonempty series. -/
theorem describeQ_min (vals : List ℚ) (h : vals.length ≠ 0) :
    (describeQ vals).min =
      some ((List.insertionSort (fun a b => a ≤ b) vals).getD 0 0) := by
  simp [describeQ, h]

/-- Helper: 25% field of a describe block on a nonempty series. -/
theorem describeQ_q25 (vals : List ℚ) (h : vals.length ≠ 0) :
    (describeQ vals).q25 =
      some (percentile (List.insertionSort (fun a b => a ≤ b) vals) 25) := by
  simp [describeQ, h]

/-- Helper: 50% field of a describe block on a nonempty series. -/
theorem describeQ_q50 (vals : List ℚ) (h : vals.length ≠ 0) :
    (describeQ vals).q50 =
      some (percentile (List.insertionSort (fun a b => a ≤ b) vals) 50) := by
  simp [describeQ, h]

/-- Helper: 75% field of a describe block on a nonempty series. -/
theorem describeQ_q75 (vals : List ℚ) (h : vals.length ≠ 0) :
    (describeQ vals).q75 =
      some (percentile (List.insertionSort (fun a b => a ≤ b) vals) 75) := by
  simp [describeQ, h]

/-- Helper: max field of a describe block on a nonempty series. -/
theorem describeQ_max (vals : List ℚ) (h : vals.length ≠ 0) :
    (describeQ vals).max =
      some ((List.insertionSort (fun a b => a ≤ b) vals).getD (vals.length - 1) 0) := by
  simp [describeQ, h]

/-- C5: every printed group block has `count` equal to the number of
non-missing `latency_us` values of its group, and when that count is
positive its order statistics satisfy min ≤ 25% ≤ 50% ≤ 75% ≤ max. -/
theorem describe_stats_ordered (t : Table) (k : String) (s : Stats)
    (hmem : (k, s) ∈ statsBlocks t) :
    s.count = (groupVals t k).length ∧
    (0 < s.count →
      ∃ mn q1 q2 q3 mx, s.min = some mn ∧ s.q25 = some q1 ∧ s.q50 = some q2 ∧
        s.q75 = some q3 ∧ s.max = some mx ∧
        mn ≤ q1 ∧ q1 ≤ q2 ∧ q2 ≤ q3 ∧ q3 ≤ mx) := by
  obtain ⟨k2, hk2, heq⟩ := List.mem_map.mp hmem
  rw [Prod.mk.injEq] at heq
  obtain ⟨rfl, rfl⟩ := heq
  refine ⟨describeQ_count _, ?_⟩
  intro hpos
  rw [describeQ_count] at hpos
  have hne : (groupVals t k2).length ≠ 0 := by omega
  have hslen : (List.insertionSort (fun a b => a ≤ b) (groupVals t k2)).length
      = (groupVals t k2).length := (List.perm_insertionSort _ _).length_eq
  have hsne : (List.insertionSort (fun a b => a ≤ b) (groupVals t k2)).length ≠ 0 := by
    rw [hslen]
    exact hne
  have hsorted : List.Sorted (fun a b => a ≤ b)
      (List.insertionSort (fun a b => a ≤ b) (groupVals t k2)) :=
    List.sorted_insertionSort _ _
  refine ⟨_, _, _, _, _, describeQ_min _ hne, describeQ_q25 _ hne,
    describeQ_q50 _ hne, describeQ_q75 _ hne, describeQ_max _ hne,
    ?_, ?_, ?_, ?_⟩
  · rw [← percentile_zero]
    exact percentile_le_percentile hsorted hsne le_rfl (by norm_num) (by norm_num)
  · exact percentile_le_percentile hsorted hsne (by norm_num) (by norm_num) (by norm_num)
  · exact percentile_le_percentile hsorted hsne (by norm_num) (by norm_num) (by norm_num)
  · have hb : (groupVals t k2).length - 1 =
        (List.insertionSort (fun a b => a ≤ b) (groupVals t k2)).length - 1 := by
      rw [hslen]
    rw [hb, ← percentile_hundred _ hsne]
    exact percentile_le_percentile hsorted hsne (by norm_num) (by norm_num) le_rfl

/-- Witness for C5 at the "LocalLRU" block of the example table. -/
theorem describe_stats_ordered_witness :
    (("LocalLRU", describeQ (groupVals table3 "LocalLRU")) ∈ statsBlocks table3) ∧
    ((describeQ (groupVals table3 "LocalLRU")).count =
        (groupVals table3 "LocalLRU").length ∧
      (0 < (describeQ (groupVals table3 "LocalLRU")).count →
        ∃ mn q1 q2 q3 mx,
          (describeQ (groupVals table3 "LocalLRU")).min = some mn ∧
          (describeQ (groupVals table3 "LocalLRU")).q25 = some q1 ∧
          (describeQ (groupVals table3 "LocalLRU")).q50 = some q2 ∧
          (describeQ (groupVals table3 "LocalLRU")).q75 = some q3 ∧
          (describeQ (groupVals table3 "LocalLRU")).max = some mx ∧
          mn ≤ q1 ∧ q1 ≤ q2 ∧ q2 ≤ q3 ∧ q3 ≤ mx)) := by
  have hmem : ("LocalLRU", describeQ (groupVals table3 "LocalLRU")) ∈ statsBlocks table3 := by
    have hk : "LocalLRU" ∈ groupKeys table3 := by decide
    exact List.mem_map_of_mem _ hk
  exact ⟨hmem, describe_stats_ordered table3 "LocalLRU" _ hmem⟩

end LocalLru

namespace Fetcher

/-- Helper: path resolution distributes over append as a fold
continuation. -/
theorem normComps_append (p q : Path) :
    normComps (p ++ q) =
      q.foldl (fun acc c => if c = ".." then acc.dropLast else acc ++ [c])
        (normComps p) := by
  simp [normComps, List.foldl_append]

/-- Helper: a final component other than `..` survives resolution. -/
theorem normComps_concat (p : Path) (c : String) (hc : c ≠ "..") :
    normComps (p ++ [c]) = normComps p ++ [c] := by
  simp [normComps_append, hc]

/-- Helper: a symbol's file name is never the `..` component. -/
theorem csv_ne_dotdot (sym : String) : sym ++ ".csv" ≠ ".." := by
  intro h
  have h2 := congrArg (fun s => s.data.length) h
  simp [String.data_append] at h2

/-- Helper: the resolved output path is the resolved base directory plus
the file name. -/
theorem normPath_eq (sd : Path) (sym : String) :
    normPath sd sym = normComps (basePath sd) ++ [sym ++ ".csv"] := by
  rw [normPath, filePath, normComps_concat _ _ (csv_ne_dotdot sym)]

/-- Helper: distinct symbols write to distinct resolved paths. -/
theorem normPath_inj (sd : Path) {s1 s2 : String}
    (h : normPath sd s1 = normPath sd s2) : s1 = s2 := by
  rw [normPath_eq, normPath_eq] at h
  have h2 := List.append_cancel_left h
  have h3 : s1 ++ ".csv" = s2 ++ ".csv" := by
    simpa using h2
  have h4 := congrArg String.data h3
  simp only [String.data_append] at h4
  exact String.ext (List.append_cancel_right h4)

/-- Helper: the created directory is present after `makedirs`. -/
theorem mem_makedirs_self (p : Path) (ds : List Path) : p ∈ makedirs p ds := by
  unfold makedirs
  by_cases h : p ∈ ds <;> simp [h]

/-- Helper: a run over symbols that all succeed ends in `ok`, prints one
`Saved` line per symbol in order, stores each symbol's download at its
resolved path, and touches nothing else. -/
theorem runFrom_ok {α : Type} (sd : Path) (env : FetchEnv α) :
    ∀ (syms : List String) (st : FetchState α),
      (∀ y ∈ syms, stepOk sd env y) →
      ∃ fin, runFrom sd env st syms = Except.ok fin ∧
        fin.dirs = st.dirs ∧
        fin.printed = st.printed ++ syms.map (savedLine sd) ∧
        (∀ p, p ∉ syms.map (normPath sd) → fin.files p = st.files p) ∧
        (∀ y ∈ syms, fin.files (normPath sd y) = env.download y) := by
  intro syms
  induction syms with
  | nil =>
    intro st _
    exact ⟨st, rfl, rfl, by simp, fun p _ => rfl, by simp⟩
  | cons sym rest ih =>
    intro st h
    have hok := h sym (List.mem_cons_self sym rest)
    obtain ⟨d, hd⟩ := Option.isSome_iff_exists.mp hok.1
    have hstep : step sd env st sym = some
        { files := fun p => if p = normPath sd sym then some d else st.files p
          dirs := st.dirs
          printed := st.printed ++ [savedLine sd sym] } := by
      simp [step, hd, hok.2]
    obtain ⟨fin, hrun, hdirs, hpr, hpres, hvals⟩ :=
      ih { files := fun p => if p = normPath sd sym then some d else st.files p
           dirs := st.dirs
           printed := st.printed ++ [savedLine sd sym] }
        (fun y hy => h y (List.mem_cons_of_mem sym hy))
    refine ⟨fin, ?_, ?_, ?_, ?_, ?_⟩
    · rw [runFrom, hstep]
      exact hrun
    · rw [hdirs]
    · rw [hpr]
      simp
    · intro p hp
      have hp1 : p ≠ normPath sd sym := by
        intro hc
        exact hp (by simp [hc])
      have hp2 : p ∉ rest.map (normPath sd) := by
        intro hc
        exact hp (by simp [hc])
      rw [hpres p hp2]
      simp [hp1]
    · intro y hy
      rcases List.mem_cons.mp hy with rfl | hy2
      · by_cases hc : normPath sd y ∈ rest.map (normPath sd)
        · obtain ⟨z, hz, hzp⟩ := List.mem_map.mp hc
          have hzy : z = y := normPath_inj sd hzp
          have hv := hvals z hz
          rw [hzy] at hv
          exact hv
        · rw [hpres _ hc]
          simp [hd]
      · exact hvals y hy2

/-- Helper: a run over a concatenation runs the first part, then the
second from where the first ended. -/
theorem runFrom_append {α : Type} (sd : Path) (env : FetchEnv α)
    (ys : List String) :
    ∀ (xs : List String) (st : FetchState α),
      runFrom sd env st (xs ++ ys) =
        match runFrom sd env st xs with
        | Except.ok st2 => runFrom sd env st2 ys
        | Except.error e => Except.error e := by
  intro xs
  induction xs with
  | nil => intro st; rfl
  | cons sym rest ih =>
    intro st
    rw [List.cons_append, runFrom, runFrom]
    cases hstep : step sd env st sym with
    | none => rfl
    | some st2 => exact ih st2

/-- Helper: a failing download or write makes the loop body raise. -/
theorem step_none {α : Type} (sd : Path) (env : FetchEnv α)
    (st : FetchState α) (sym : String) (h : ¬ stepOk sd env sym) :
    step sd env st sym = none := by
  unfold step
  cases hd : env.download sym with
  | none => rfl
  | some d =>
    have hw : env.writeOk (normPath sd sym) = false := by
      by_contra hw2
      exact h ⟨by simp [hd], by simpa using hw2⟩
    simp [hw]

/-- C8: when every download and write succeeds, the Fetcher ends normally
having written one file per symbol at `<project_root>/data/<SYM>.csv`
(overwriting whatever was there), printed one `Saved <path>` line per
symbol in order, and created the output directory; running from any prior
state (directory already present or not) succeeds alike. -/
theorem fetch_success_writes_all {α : Type} (env : FetchEnv α)
    (init : FetchState α) (root : Path)
    (hroot : normComps root = root)
    (hok : ∀ y ∈ symbols, stepOk (root ++ ["scripts"]) env y) :
    ∃ fin, fetchMain (root ++ ["scripts"]) env init = Except.ok fin ∧
      fin.printed = init.printed ++ symbols.map (savedLine (root ++ ["scripts"])) ∧
      (∀ y ∈ symbols, fin.files (root ++ ["data", y ++ ".csv"]) = env.download y) ∧
      root ++ ["data"] ∈ fin.dirs := by
  have hbase : normComps (basePath (root ++ ["scripts"])) = root ++ ["data"] := by
    rw [basePath, List.append_assoc]
    rw [normComps_append, hroot]
    simp
  have hpath : ∀ y : String,
      normPath (root ++ ["scripts"]) y = root ++ ["data", y ++ ".csv"] := by
    intro y
    rw [normPath_eq, hbase]
    simp
  obtain ⟨fin, hrun, hdirs, hpr, hpres, hvals⟩ :=
    runFrom_ok (root ++ ["scripts"]) env symbols
      { files := init.files
        dirs := makedirs (normComps (basePath (root ++ ["scripts"]))) init.dirs
        printed := init.printed } hok
  refine ⟨fin, hrun, by simpa using hpr, ?_, ?_⟩
  · intro y hy
    rw [← hpath y]
    exact hvals y hy
  · rw [hdirs, hbase]
    exact mem_makedirs_self _ _

/-- Witness for C8 at a concrete always-succeeding environment. -/
theorem fetch_success_writes_all_witness :
    normComps ["proj"] = ["proj"] ∧
    (∀ y ∈ symbols, stepOk (["proj"] ++ ["scripts"]) wEnv y) ∧
    (∃ fin, fetchMain (["proj"] ++ ["scripts"]) wEnv wInit = Except.ok fin ∧
      fin.printed = wInit.printed ++ symbols.map (savedLine (["proj"] ++ ["scripts"])) ∧
      (∀ y ∈ symbols, fin.files (["proj"] ++ ["data", y ++ ".csv"]) = wEnv.download y) ∧
      ["proj"] ++ ["data"] ∈ fin.dirs) :=
  ⟨by decide, by decide,
    fetch_success_writes_all wEnv wInit ["proj"] (by decide) (by decide)⟩

/-- C9: if the download or write of some symbol fails while all earlier
symbols succeed, the run aborts there: the earlier symbols' files are on
disk and their lines printed, while the failing symbol and all later ones
(none of which recur earlier in the list) got no file and no line. -/
theorem fetch_abort_midway {α : Type} (env : FetchEnv α)
    (init : FetchState α) (sd : Path) (pre post : List String) (s : String)
    (hsplit : symbols = pre ++ s :: post)
    (hok : ∀ y ∈ pre, stepOk sd env y)
    (hfail : ¬ stepOk sd env s) :
    ∃ fin, fetchMain sd env init = Except.error fin ∧
      fin.printed = init.printed ++ pre.map (savedLine sd) ∧
      (∀ y ∈ pre, fin.files (normPath sd y) = env.download y) ∧
      (∀ y ∈ s :: post, fin.files (normPath sd y) = init.files (normPath sd y)) ∧
      (∀ y ∈ s :: post, y ∉ pre) := by
  have hnodup : symbols.Nodup := by decide
  rw [hsplit, List.nodup_append] at hnodup
  have hdisj : ∀ y ∈ s :: post, y ∉ pre := by
    intro y hy hyp
    exact hnodup.2.2 hyp hy
  obtain ⟨fin, hrun, hdirs, hpr, hpres, hvals⟩ :=
    runFrom_ok sd env pre
      { files := init.files
        dirs := makedirs (normComps (basePath sd)) init.dirs
        printed := init.printed } hok
  have hmain : fetchMain sd env init = Except.error fin := by
    show runFrom sd env _ symbols = _
    rw [hsplit, runFrom_append, hrun]
    show runFrom sd env fin (s :: post) = Except.error fin
    rw [runFrom, step_none sd env fin s hfail]
  refine ⟨fin, hmain, by simpa using hpr, hvals, ?_, hdisj⟩
  intro y hy
  have hnp : normPath sd y ∉ pre.map (normPath sd) := by
    intro hc
    obtain ⟨z, hz, hzy⟩ := List.mem_map.mp hc
    have hzyeq : z = y := normPath_inj sd hzy
    exact hdisj y hy (hzyeq ▸ hz)
  exact hpres _ hnp

/-- Witness for C9: the download of "GOOG" raises; "AAPL" and "MSFT" were
saved, "GOOG" and "TSLA" were not. -/
theorem fetch_abort_midway_witness :
    symbols = ["AAPL", "MSFT"] ++ "GOOG" :: ["TSLA"] ∧
    (∀ y ∈ ["AAPL", "MSFT"], stepOk ["scripts"] wEnv2 y) ∧
    ¬ stepOk ["scripts"] wEnv2 "GOOG" ∧
    (∃ fin, fetchMain ["scripts"] wEnv2 wInit = Except.error fin ∧
      fin.printed = wInit.printed ++ (["AAPL", "MSFT"]).map (savedLine ["scripts"]) ∧
      (∀ y ∈ ["AAPL", "MSFT"], fin.files (normPath ["scripts"] y) = wEnv2.download y) ∧
      (∀ y ∈ "GOOG" :: ["TSLA"],
        fin.files (normPath ["scripts"] y) = wInit.files (normPath ["scripts"] y)) ∧
      (∀ y ∈ "GOOG" :: ["TSLA"], y ∉ ["AAPL", "MSFT"])) :=
  ⟨rfl, by decide, by decide,
    fetch_abort_midway wEnv2 wInit ["scripts"] ["AAPL", "MSFT"] ["TSLA"] "GOOG"
      rfl (by decide) (by decide)⟩

end Fetcher
